import Mathlib

/-!
Shallow embedding of the job-search pipeline (Thassio141/job-search-gli):
the Gupy and Indeed scrapers' record extraction, pagination and
deduplication, the orchestrator's control flow, and the Discord bot's
delivery-ledger handling, together with theorems settling the spec claims.
-/

namespace JobSearchGLI

/-- Text is modelled as a list of characters (Python `str`). -/
abbrev Str := List Char

/-- Conversion from a Lean string literal to the character-list model. -/
def str (s : String) : Str := s.data

/-- Models Python `str.lower()` on the ASCII range (all concrete inputs used
in this development are ASCII apart from fixed pattern literals, which are
compared verbatim). -/
def lowerStr (s : Str) : Str := s.map Char.toLower

/-- Models Python `str.strip()`: drop leading and trailing whitespace. -/
def stripStr (s : Str) : Str :=
  ((s.dropWhile Char.isWhitespace).reverse.dropWhile Char.isWhitespace).reverse

/-- Models Python `str.replace(' ', '_')`. -/
def replaceSpaces (s : Str) : Str := s.map (fun c => if c = ' ' then '_' else c)

/-- `startsWithStr p s` holds when `p` is a prefix of `s` (Python `startswith`). -/
def startsWithStr : Str → Str → Bool
  | [], _ => true
  | _ :: _, [] => false
  | p :: ps, c :: cs => p == c && startsWithStr ps cs

/-- `containsStr p s` models Python `p in s` (substring containment). -/
def containsStr (pat : Str) : Str → Bool
  | [] => pat.isEmpty
  | c :: cs => startsWithStr pat (c :: cs) || containsStr pat cs

/-- Python truthiness of an optional string: `None` and `''` are falsy. -/
def strTruthy : Option Str → Bool
  | none => false
  | some s => !s.isEmpty

/-- Models Python `a or b` on optional strings: `a` if truthy, else `b`. -/
def pyOrStr (a b : Option Str) : Option Str := if strTruthy a then a else b

/-- Models Python `(d.get(k) or '')`: absent and `None` both become `''`. -/
def pyGetStr (o : Option Str) : Str := o.getD []

/-- Models `' '.join(texts)`. -/
def joinSpace : List Str → Str
  | [] => []
  | [s] => s
  | s :: rest => s ++ ' ' :: joinSpace rest

/--
The job dictionary flowing through the pipeline.  The scrapers build Python
dicts with heterogeneous key sets (`gupy_scraper` uses `link`/`nome`/…,
`indeed_scraper` uses `url`/`nome`/`local`/…, and `discord_bot` reads
`titulo`/`empresa`/`plataforma`); an absent key read through `dict.get` is
indistinguishable from a `None` value, so every key is an `Option` field
(`none` = key absent or `None`).  The `local` key is spelled `loc` because
`local` is a Lean keyword.  Publication dates are abstracted to `Int`
ordinals (only their ordering against the cutoff matters). -/
structure JobDict where
  titulo : Option Str
  plataforma : Option Str
  nome : Option Str
  empresa : Option Str
  loc : Option Str
  link : Option Str
  jobId : Option Str
  url : Option Str
  resumo : Option Str
  tipoContrato : Option Str
  dataPublicacaoStr : Option Str
  dataPublicacao : Option Int
  remoto : Option Bool
deriving DecidableEq

/-- A `JobDict` with every key absent; concrete records are built from it. -/
def emptyJob : JobDict :=
  { titulo := none, plataforma := none, nome := none, empresa := none,
    loc := none, link := none, jobId := none, url := none, resumo := none,
    tipoContrato := none, dataPublicacaoStr := none, dataPublicacao := none,
    remoto := none }

namespace VagasBot

/-- Embeds `VagasBot.create_job_id` (discord_bot.py lines 100-105):
`f"{platform}_{company}_{title}".replace(' ', '_')` where each component is
`job.get(key, '').lower().strip()`. -/
def create_job_id (j : JobDict) : Str :=
  let title := stripStr (lowerStr (pyGetStr j.titulo))
  let company := stripStr (lowerStr (pyGetStr j.empresa))
  let platform := stripStr (lowerStr (pyGetStr j.plataforma))
  replaceSpaces (platform ++ '_' :: company ++ '_' :: title)

/-- Embeds the new-job selection loop of `VagasBot.send_new_jobs`
(discord_bot.py lines 166-171): walk the consolidated jobs in order; a job
whose id is not yet in `sent_jobs` is appended to `new_jobs` and its id is
added to the set immediately (before anything is sent).  Returns
`(new_jobs, sent_jobs)`; the set is modelled as a list with membership. -/
def selectNewJobs (sent : List Str) : List JobDict → List JobDict × List Str
  | [] => ([], sent)
  | j :: rest =>
    if create_job_id j ∈ sent then selectNewJobs sent rest
    else
      let r := selectNewJobs (create_job_id j :: sent) rest
      (j :: r.1, r.2)

/-- Embeds `VagasBot.send_new_jobs` (discord_bot.py lines 148-204) after the
file/channel bootstrapping: select the new jobs (adding their ids to the
in-memory set up front), send each one — a per-record failure is caught by
the inner `except` and the loop continues — then call `save_sent_jobs`,
persisting the whole set.  `deliver` models whether `channel.send` succeeds
for a record.  Returns `(successfully delivered jobs, persisted ledger)`;
when no job is new the function returns early without saving (the set is
unchanged in that case). -/
def send_new_jobs (sent : List Str) (jobs : List JobDict)
    (deliver : JobDict → Bool) : List JobDict × List Str :=
  let sel := selectNewJobs sent jobs
  if sel.1.isEmpty then ([], sent)
  else (sel.1.filter deliver, sel.2)

end VagasBot

/-- Embeds `deduplicate_jobs`' key derivation (gupy_scraper.py lines 283-286):
`key = job.get('link') or job.get('jobId')`, with `if not key: continue`
folded in as returning `none` for a falsy key. -/
def gupyKeyOf (j : JobDict) : Option Str :=
  let k := pyOrStr j.link j.jobId
  if strTruthy k then k else none

/-- The accumulator loop of `deduplicate_jobs` (gupy_scraper.py lines
280-290): `seen` is the set of keys already kept. -/
def gupyDedupGo (seen : List Str) : List JobDict → List JobDict
  | [] => []
  | j :: rest =>
    match gupyKeyOf j with
    | none => gupyDedupGo seen rest
    | some s => if s ∈ seen then gupyDedupGo seen rest
                else j :: gupyDedupGo (s :: seen) rest

/-- Embeds `deduplicate_jobs` (gupy_scraper.py lines 280-290). -/
def deduplicate_jobs (jobs : List JobDict) : List JobDict := gupyDedupGo [] jobs

/-- Specification-side helper: the first record of the list whose gupy
dedup key is `s` (independent of the dedup algorithm). -/
def findFirstWithKey (s : Str) : List JobDict → Option JobDict
  | [] => none
  | j :: rest => if gupyKeyOf j = some s then some j else findFirstWithKey s rest

/-- Models `urlsplit`/`urlunsplit` with query and fragment dropped
(indeed_scraper.py lines 46-47): the prefix of the URL before the first
`?` or `#`. -/
def stripQueryFrag (s : Str) : Str := s.takeWhile (fun c => c ≠ '?' && c ≠ '#')

/-- Embeds `_normalize_url` (indeed_scraper.py lines 39-47): falsy input
gives `None`; an Indeed view-job URL carrying its `jk` parameter is kept
verbatim; any other URL loses query and fragment. -/
def _normalize_url (u : Option Str) : Option Str :=
  match u with
  | none => none
  | some s =>
    if s.isEmpty then none
    else if containsStr (str "indeed.com/viewjob") s && containsStr (str "jk=") s then some s
    else some (stripQueryFrag s)

/-- Embeds the key derivation of `_deduplicate_jobs` (indeed_scraper.py
lines 52-67): generic `rc/clk` redirects key on name|empresa, other truthy
URLs key on the normalized URL, and a falsy URL falls back to
name|empresa|local. -/
def indeedKey (j : JobDict) : Str :=
  let un := _normalize_url j.url
  if strTruthy un && containsStr (str "indeed.com/rc/clk") (pyGetStr un) then
    str "name:" ++ lowerStr (stripStr (pyGetStr j.nome)) ++
      '|' :: lowerStr (stripStr (pyGetStr j.empresa))
  else if strTruthy un && containsStr (str "indeed.com/viewjob") (pyGetStr un) then
    str "url:" ++ pyGetStr un
  else if strTruthy un then
    str "url:" ++ pyGetStr un
  else
    str "name:" ++ lowerStr (stripStr (pyGetStr j.nome)) ++
      '|' :: lowerStr (stripStr (pyGetStr j.empresa)) ++
      '|' :: lowerStr (stripStr (pyGetStr j.loc))

/-- Embeds the URL rewrite of `_deduplicate_jobs` (indeed_scraper.py lines
71-73): a kept record whose URL normalized truthily is saved with the
normalized URL. -/
def indeedRewrite (j : JobDict) : JobDict :=
  let un := _normalize_url j.url
  if strTruthy un then { j with url := un } else j

/-- The accumulator loop of `_deduplicate_jobs` (indeed_scraper.py lines
49-75). -/
def indeedDedupGo (seen : List Str) : List JobDict → List JobDict
  | [] => []
  | j :: rest =>
    if indeedKey j ∈ seen then indeedDedupGo seen rest
    else indeedRewrite j :: indeedDedupGo (indeedKey j :: seen) rest

/-- Embeds `_deduplicate_jobs` (indeed_scraper.py lines 49-75). -/
def _deduplicate_jobs (jobs : List JobDict) : List JobDict := indeedDedupGo [] jobs

/-- Specification-side helper: the first record of the list whose Indeed
dedup key is `k`. -/
def findFirstWithIKey (k : Str) : List JobDict → Option JobDict
  | [] => none
  | j :: rest => if indeedKey j = k then some j else findFirstWithIKey k rest

namespace GupyScraper

/-- `GupyScraper.base_url` (gupy_scraper.py line 30). -/
def base_url : Str := str "https://portal.gupy.io"

/--
One job card of a Gupy results page, as seen by `_extract_job_info` after
BeautifulSoup parsing.  `hasLink` is the presence of the
`a[aria-label^="Ir para vaga"]` element and `href` its `href` attribute
(`''` when absent); `titleText`/`companyText` are the stripped texts of the
`h3`/`p` children (`none` when the element is missing); `detailTexts` are
the non-empty span texts.  The contract-type and publication-date scans
(regex searches over `detailTexts` and the aria-label, plus `_parse_date`)
are modelled at this boundary as the already-parsed fields
`parsedContract`, `parsedDate` and `parsedDateStr`, since no claim depends
on their derivation — only on how their results flow onward. -/
structure GupyCard where
  hasLink : Bool
  href : Str
  titleText : Option Str
  companyText : Option Str
  detailTexts : List Str
  parsedContract : Option Str
  parsedDate : Option Int
  parsedDateStr : Option Str
deriving DecidableEq

/-- Models `urllib.parse.urljoin(base_url, href)` for the href shapes the
site produces (site-absolute paths against the parameterless base URL). -/
def urljoinModel (base href : Str) : Str := base ++ href

/-- Embeds `GupyScraper._extract_job_info` (gupy_scraper.py lines 88-177):
reject when the job-link element is missing or its href is empty; otherwise
build the record dict — note that an empty or missing title is NOT
rejected, `nome` is simply `None`.  `remoto` is the substring check over
the joined, lowercased detail texts (lines 112-113). -/
def _extract_job_info (c : GupyCard) (base : Str) : Option JobDict :=
  if !c.hasLink then none
  else if c.href.isEmpty then none
  else
    let link := if startsWithStr (str "http") c.href then c.href
                else urljoinModel base c.href
    let detailCombined := lowerStr (joinSpace c.detailTexts)
    let remoto := containsStr (str "remoto") detailCombined ||
                  containsStr (str "home office") detailCombined
    some { emptyJob with
      nome := c.titleText, empresa := c.companyText,
      link := some link, remoto := some remoto,
      tipoContrato := c.parsedContract,
      dataPublicacao := c.parsedDate,
      dataPublicacaoStr := c.parsedDateStr }

/-- The Senior/SR exclusion applied in `scrape_jobs` (gupy_scraper.py lines
216-220): `nome = (job_info.get('nome') or '').lower()` followed by
`'senior' in nome or 'sr' in nome`. -/
def seniorName (nome : Option Str) : Bool :=
  let n := lowerStr (pyGetStr nome)
  containsStr (str "senior") n || containsStr (str "sr") n

/-- The prints of the stale, recent and undated branches subscript
`job_info['nome'][:50]` (gupy_scraper.py lines 225, 229, 232): when `nome`
is `None` this raises `TypeError`, which the per-card `except` (lines
234-236) catches, dropping the record.  The print runs before
`has_old_job_on_page = True` and before `page_jobs.append`, so a
`None`-titled record is never kept and never sets the stale flag. -/
def nomePrintRaises (j : JobDict) : Bool := j.nome.isNone

/-- The per-card body of the `scrape_jobs` page loop (gupy_scraper.py lines
212-236): extract; require a truthy link; drop Senior/SR titles; then, in
every remaining branch, the print subscripts `nome` first — a `None` title
raises and the record is dropped by the per-card handler (stale flag NOT
set).  Otherwise a record dated before the cutoff is dropped and marks the
page as containing an old job, and dated-recent and undated records are
kept.  Returns `(kept record, marked old)`. -/
def cardStep (cutoff : Int) (c : GupyCard) : Option JobDict × Bool :=
  match _extract_job_info c base_url with
  | none => (none, false)
  | some j =>
    if strTruthy j.link then
      if seniorName j.nome then (none, false)
      else
        match j.dataPublicacao with
        | some d =>
          if d < cutoff then
            if nomePrintRaises j then (none, false) else (none, true)
          else
            if nomePrintRaises j then (none, false) else (some j, false)
        | none =>
          if nomePrintRaises j then (none, false) else (some j, false)
    else (none, false)

/-- One page of the `scrape_jobs` loop: the kept records in card order and
the `has_old_job_on_page` flag (gupy_scraper.py lines 210-236). -/
def processPage (cutoff : Int) : List GupyCard → List JobDict × Bool
  | [] => ([], false)
  | c :: cs =>
    let hd := cardStep cutoff c
    let tl := processPage cutoff cs
    (hd.1.toList ++ tl.1, hd.2 || tl.2)

/-- Embeds the pagination loop of `GupyScraper.scrape_jobs` (gupy_scraper.py
lines 199-261).  `pages` is the successive card lists the site yields; the
list ending models the next-page button being absent or disabled.  The loop
runs while `current_page <= max_pages` and no old job was found: an empty
card list breaks immediately; after processing a page its kept jobs are
appended, and a page marked old ends the crawl without requesting a further
page.  `cutoff` is the absolute instant `now - max_days_old`. -/
def scrapeAux (cutoff : Int) : Nat → List (List GupyCard) → List JobDict
  | 0, _ => []
  | _ + 1, [] => []
  | n + 1, cards :: rest =>
    if cards.isEmpty then []
    else
      let pr := processPage cutoff cards
      if pr.2 then pr.1
      else pr.1 ++ (if rest.isEmpty then [] else scrapeAux cutoff n rest)

/-- Embeds `GupyScraper.scrape_jobs` (gupy_scraper.py lines 179-264). -/
def scrape_jobs (cutoff : Int) (max_pages : Nat)
    (pages : List (List GupyCard)) : List JobDict :=
  scrapeAux cutoff max_pages pages

end GupyScraper

namespace IndeedScraper

/-- `IndeedScraper.site` default (indeed_scraper.py line 93). -/
def site : Str := str "https://br.indeed.com"

/--
One Indeed job card as seen by `IndeedScraper._extract_job_info` after
BeautifulSoup parsing: `hasTitleA` is the presence of `a.jcs-JobTitle`,
`titleText` its stripped text (`''` when empty), `dataJk`/`href` its
attributes, and the remaining fields the texts of the company, location
and summary elements (`none` when missing). -/
structure IndeedCard where
  hasTitleA : Bool
  titleText : Str
  dataJk : Option Str
  href : Option Str
  empresaText : Option Str
  localText : Option Str
  resumoText : Option Str
deriving DecidableEq

/-- Embeds `IndeedScraper._extract_job_info` (indeed_scraper.py lines
174-213): `nome` defaults to `''` when the title element is missing; the
URL is built from `data-jk` when truthy, else from the href; a record with
empty `nome` is rejected.  The resulting dict has keys
nome/empresa/local/url/resumo only. -/
def _extract_job_info (c : IndeedCard) : Option JobDict :=
  let nome := if c.hasTitleA then c.titleText else []
  let url : Option Str :=
    if c.hasTitleA then
      if strTruthy c.dataJk then
        some (site ++ str "/viewjob?jk=" ++ pyGetStr c.dataJk)
      else
        match c.href with
        | some h =>
          if h.isEmpty then none
          else if startsWithStr (str "/") h then some (site ++ h) else some h
        | none => none
    else none
  if nome.isEmpty then none
  else some { emptyJob with
    nome := some nome, empresa := c.empresaText, loc := c.localText,
    url := url, resumo := c.resumoText }

/-- A word character for the purposes of the regex `\b` boundary, modelling
Python's unicode-aware `\w` over the characters appearing in this data:
ASCII alphanumerics, underscore, and the accented Latin letters of
Portuguese job titles. -/
def isWordChar (c : Char) : Bool :=
  c.isAlphanum || c == '_' ||
  (str "áàâãéêíóôõúüçÁÀÂÃÉÊÍÓÔÕÚÜÇ").contains c

/-- Boundary condition of `\b` against the neighbouring character
(`none` = string edge). -/
def boundaryOk : Option Char → Bool
  | none => true
  | some c => !isWordChar c

/-- The alternatives of the pattern `\b(senior|sênior|sr)\b`
(indeed_scraper.py line 275). -/
def seniorWords : List Str := [str "senior", str "sênior", str "sr"]

/-- Scanner for `re.search(r"\b(senior|sênior|sr)\b", s)`: at each position
try every alternative, requiring a word boundary on both sides.  `prev` is
the character preceding the current position. -/
def seniorScan (prev : Option Char) : Str → Bool
  | [] =>
    seniorWords.any (fun w => w.isEmpty && boundaryOk prev)
  | c :: cs =>
    seniorWords.any (fun w =>
      startsWithStr w (c :: cs) && boundaryOk prev &&
      boundaryOk ((c :: cs).drop w.length).head?) ||
    seniorScan (some c) cs

/-- Whether `re.search(r"\b(senior|sênior|sr)\b", s)` finds a match. -/
def seniorWordMatch (s : Str) : Bool := seniorScan none s

/-- The Senior/SR exclusion of `IndeedScraper.scrape_jobs` (indeed_scraper.py
lines 273-277), applied to `(info.get('nome') or '').lower()`. -/
def seniorName (nome : Option Str) : Bool :=
  seniorWordMatch (lowerStr (pyGetStr nome))

/-- The per-card body of the Indeed page loop (indeed_scraper.py lines
266-281): extract, then drop the record when `senior_filter` is on and the
title matches the pattern. -/
def cardStep (senior_filter : Bool) (c : IndeedCard) : Option JobDict :=
  match _extract_job_info c with
  | none => none
  | some j => if senior_filter && seniorName j.nome then none else some j

/-- One fetched Indeed results page: either the wait for job titles timed
out, or a list of cards was found. -/
inductive IndeedPage where
  | timeout : IndeedPage
  | cards : List IndeedCard → IndeedPage
deriving DecidableEq

/-- Embeds the page loop of `IndeedScraper.scrape_jobs` (indeed_scraper.py
lines 232-293) over the sequence of fetched pages: a timeout skips to the
next page (`continue`), an empty card list ends the pagination (`break`),
and otherwise the page's surviving records are appended in order. -/
def scrapeGo (senior_filter : Bool) : List IndeedPage → List JobDict
  | [] => []
  | IndeedPage.timeout :: rest => scrapeGo senior_filter rest
  | IndeedPage.cards cs :: rest =>
    if cs.isEmpty then []
    else cs.filterMap (cardStep senior_filter) ++ scrapeGo senior_filter rest

/-- Embeds `IndeedScraper.scrape_jobs` (indeed_scraper.py lines 218-293):
`for page in range(max_pages)` caps the pages visited at `max_pages`. -/
def scrape_jobs (max_pages : Nat) (senior_filter : Bool)
    (pages : List IndeedPage) : List JobDict :=
  scrapeGo senior_filter (pages.take max_pages)

end IndeedScraper

namespace MainScraper

/-- Embeds the control flow of `MainScraper.run_all_scrapers`
(main_scraper.py lines 157-201).  Each entry of `sources` is the outcome of
one `run_X_scraper` phase: `ok jobs` when it returns a record list, `error`
when it raises.  All three phases run inside ONE `try` block, so the first
raising phase aborts the sequence: the results recorded so far are saved by
the `except` handler and the exception is re-raised (`raise`); the
remaining phases never execute.  Returns the per-source results recorded in
`self.results` together with the propagated error, if any. -/
def run_all_scrapers : List (Except Str (List JobDict)) →
    List (List JobDict) × Option Str
  | [] => ([], none)
  | Except.ok js :: rest =>
    let r := run_all_scrapers rest
    (js :: r.1, r.2)
  | Except.error e :: _ => ([], some e)

end MainScraper

/-- The two files a persistence write touches: the snapshot path readers
load, and the sibling temporary path.  `none` = file absent. -/
structure FileState where
  final : Option Str
  tmp : Option Str
deriving DecidableEq

/-- Crash model of `_atomic_write_json` (indeed_scraper.py lines 33-37):
the snapshot is first written to `path + '.tmp'` — opening truncates the
temp file and the payload lands in pieces — and only `os.replace` makes it
visible.  The list enumerates the observable file states after each
micro-step; the final path holds the old snapshot at every point before
the replace. -/
def atomicWriteSteps (fs : FileState) (data : Str) : List FileState :=
  (List.range (data.length + 1)).map
    (fun k => { final := fs.final, tmp := some (data.take k) }) ++
  [{ final := some data, tmp := none }]

/-- Crash model of `VagasBot.save_sent_jobs` (discord_bot.py lines 87-98):
`open(self.sent_jobs_file, 'w')` truncates the ledger file in place and
`json.dump` writes the payload in pieces directly to it — there is no
temporary file and no replace.  The list enumerates the observable states
after each micro-step. -/
def saveSentJobsSteps (fs : FileState) (data : Str) : List FileState :=
  (List.range (data.length + 1)).map
    (fun k => { final := some (data.take k), tmp := fs.tmp })

/-! Specification-side predicates for the Gupy pagination claims, stated
independently of the loop in `GupyScraper.scrape_jobs`. -/

/-- A record survives the Gupy page loop: truthy link, title not matching
the Senior/SR substring filter, title present (`nome` not `None` — the
branch prints subscript it and a `None` raises, dropping the record), and
publication date absent or not older than the cutoff. -/
def gupyKeep (cutoff : Int) (j : JobDict) : Bool :=
  strTruthy j.link && !GupyScraper.seniorName j.nome && !j.nome.isNone &&
  (match j.dataPublicacao with
   | some d => !decide (d < cutoff)
   | none => true)

/-- A record marks its page as containing an old job: it reaches the date
check (truthy link, not Senior/SR-filtered), its title is present (a
`None` title makes the stale-branch print raise before the flag is set),
and it is dated before the cutoff. -/
def gupyStale (cutoff : Int) (j : JobDict) : Bool :=
  strTruthy j.link && !GupyScraper.seniorName j.nome && !j.nome.isNone &&
  (match j.dataPublicacao with
   | some d => decide (d < cutoff)
   | none => false)

/-! Concrete cards and records used by counterexamples and witnesses. -/

/-- A Gupy card dated ordinal 1 (older than the cutoff 10 used below). -/
def gOldCard : GupyScraper.GupyCard :=
  { hasLink := true, href := str "/vaga/old",
    titleText := some (str "dev antigo"), companyText := some (str "X"),
    detailTexts := [], parsedContract := none,
    parsedDate := some 1, parsedDateStr := some (str "01/01/2020") }

/-- The record `_extract_job_info` produces for `gOldCard`. -/
def jOld : JobDict :=
  { emptyJob with
    nome := some (str "dev antigo"), empresa := some (str "X"),
    link := some (str "https://portal.gupy.io/vaga/old"),
    remoto := some false, dataPublicacao := some 1,
    dataPublicacaoStr := some (str "01/01/2020") }

/-- A Gupy card dated ordinal 20 (within the cutoff 10 used below). -/
def gFreshCard : GupyScraper.GupyCard :=
  { hasLink := true, href := str "/vaga/new",
    titleText := some (str "dev novo"), companyText := some (str "Y"),
    detailTexts := [str "Remoto"], parsedContract := none,
    parsedDate := some 20, parsedDateStr := some (str "02/02/2020") }

/-- The record `_extract_job_info` produces for `gFreshCard`. -/
def jFresh : JobDict :=
  { emptyJob with
    nome := some (str "dev novo"), empresa := some (str "Y"),
    link := some (str "https://portal.gupy.io/vaga/new"),
    remoto := some true, dataPublicacao := some 20,
    dataPublicacaoStr := some (str "02/02/2020") }

/-- A Gupy card within the cutoff whose title contains `senior`. -/
def gSeniorCard : GupyScraper.GupyCard :=
  { hasLink := true, href := str "/vaga/sen",
    titleText := some (str "analista senior"), companyText := some (str "Z"),
    detailTexts := [], parsedContract := none,
    parsedDate := some 20, parsedDateStr := none }

/-- The record `_extract_job_info` produces for `gSeniorCard`. -/
def jSenior : JobDict :=
  { emptyJob with
    nome := some (str "analista senior"), empresa := some (str "Z"),
    link := some (str "https://portal.gupy.io/vaga/sen"),
    remoto := some false, dataPublicacao := some 20 }

/-- A Gupy card whose link is present but whose `h3` title element is
missing. -/
def gNoTitleCard : GupyScraper.GupyCard :=
  { hasLink := true, href := str "/vaga/sem-titulo",
    titleText := none, companyText := some (str "W"),
    detailTexts := [], parsedContract := none,
    parsedDate := none, parsedDateStr := none }

/-- The record `_extract_job_info` produces for `gNoTitleCard`: it is
accepted although its title is absent. -/
def jNoTitle : JobDict :=
  { emptyJob with
    empresa := some (str "W"),
    link := some (str "https://portal.gupy.io/vaga/sem-titulo"),
    remoto := some false }

/-- A Gupy card with no `h3` title element whose record is dated ordinal 1,
older than the cutoff 10 used below: its stale-branch print raises on the
`None` title, so the record is dropped without setting the stale flag. -/
def gNoTitleOldCard : GupyScraper.GupyCard :=
  { hasLink := true, href := str "/vaga/sem-titulo-antiga",
    titleText := none, companyText := some (str "V"),
    detailTexts := [], parsedContract := none,
    parsedDate := some 1, parsedDateStr := some (str "01/01/2020") }

/-- An Indeed card with a `data-jk` attribute and a non-senior title. -/
def iPlenoCard : IndeedScraper.IndeedCard :=
  { hasTitleA := true, titleText := str "dev pleno",
    dataJk := some (str "abc123"), href := none,
    empresaText := some (str "Acme"), localText := some (str "Home Office"),
    resumoText := none }

/-- The record `IndeedScraper._extract_job_info` produces for
`iPlenoCard`. -/
def jPleno : JobDict :=
  { emptyJob with
    nome := some (str "dev pleno"), empresa := some (str "Acme"),
    loc := some (str "Home Office"),
    url := some (str "https://br.indeed.com/viewjob?jk=abc123") }

/-- A Gupy-shaped consolidated record from company Acme. -/
def jobAcme1 : JobDict :=
  { emptyJob with
    nome := some (str "pessoa desenvolvedora backend"),
    empresa := some (str "Acme"),
    link := some (str "https://portal.gupy.io/vaga/1") }

/-- A second Gupy-shaped record from the same company with the same title
but a different link. -/
def jobAcme2 : JobDict :=
  { emptyJob with
    nome := some (str "pessoa desenvolvedora backend"),
    empresa := some (str "Acme"),
    link := some (str "https://portal.gupy.io/vaga/2") }

/-! ## Helper lemmas about the delivery-selection loop -/

namespace VagasBot

theorem selectNewJobs_sent_subset (s : Str) (jobs : List JobDict) :
    ∀ sent, s ∈ sent → s ∈ (selectNewJobs sent jobs).2 := by
  induction jobs with
  | nil => intro sent h; simpa [selectNewJobs] using h
  | cons j rest ih =>
    intro sent h
    by_cases hc : create_job_id j ∈ sent
    · simpa [selectNewJobs, hc] using ih sent h
    · simpa [selectNewJobs, hc] using
        ih (create_job_id j :: sent) (List.mem_cons_of_mem _ h)

theorem selectNewJobs_id_mem_snd (jobs : List JobDict) :
    ∀ sent j, j ∈ (selectNewJobs sent jobs).1 →
      create_job_id j ∈ (selectNewJobs sent jobs).2 := by
  induction jobs with
  | nil => intro sent j h; simp [selectNewJobs] at h
  | cons j0 rest ih =>
    intro sent j h
    by_cases hc : create_job_id j0 ∈ sent
    · simp only [selectNewJobs, if_pos hc] at h ⊢
      exact ih sent j h
    · simp only [selectNewJobs, if_neg hc, List.mem_cons] at h ⊢
      rcases h with h | h
      · subst h
        exact selectNewJobs_sent_subset _ rest _ (List.mem_cons_self _ _)
      · exact ih _ j h

theorem selectNewJobs_fst_nil_snd (jobs : List JobDict) :
    ∀ sent, (selectNewJobs sent jobs).1 = [] →
      (selectNewJobs sent jobs).2 = sent := by
  induction jobs with
  | nil => intro sent _; simp [selectNewJobs]
  | cons j0 rest ih =>
    intro sent h
    by_cases hc : create_job_id j0 ∈ sent
    · simp only [selectNewJobs, if_pos hc] at h ⊢
      exact ih sent h
    · simp [selectNewJobs, if_neg hc] at h

theorem selectNewJobs_id_not_sent (jobs : List JobDict) :
    ∀ sent j, j ∈ (selectNewJobs sent jobs).1 → create_job_id j ∉ sent := by
  induction jobs with
  | nil => intro sent j h; simp [selectNewJobs] at h
  | cons j0 rest ih =>
    intro sent j h
    by_cases hc : create_job_id j0 ∈ sent
    · simp only [selectNewJobs, if_pos hc] at h
      exact ih sent j h
    · simp only [selectNewJobs, if_neg hc, List.mem_cons] at h
      rcases h with h | h
      · subst h; exact hc
      · intro hmem
        exact ih _ j h (List.mem_cons_of_mem _ hmem)

theorem selectNewJobs_pairwise_ids (jobs : List JobDict) :
    ∀ sent, ((selectNewJobs sent jobs).1).Pairwise
      (fun a b => create_job_id a ≠ create_job_id b) := by
  induction jobs with
  | nil => intro sent; simp [selectNewJobs]
  | cons j0 rest ih =>
    intro sent
    by_cases hc : create_job_id j0 ∈ sent
    · simp only [selectNewJobs, if_pos hc]
      exact ih sent
    · simp only [selectNewJobs, if_neg hc]
      refine List.Pairwise.cons ?_ (ih _)
      intro b hb hid
      have hnot := selectNewJobs_id_not_sent rest _ b hb
      exact hnot (by simp [hid])

end VagasBot

/-! ## Claim C1: when is a key added to the delivery ledger? -/

/-- C1 counterexample.  The claim says a record's key is added to the
durable ledger only after the Notifier reports success, and that a record
whose delivery failed is not added and is retried on the next run.  In the
code, the id of every selected record is added to `sent_jobs` before
anything is sent, and `save_sent_jobs` persists the whole set even though
delivery of `jobAcme1` failed (`deliver` constantly false): the delivered
list is empty, yet the persisted ledger contains the record's key, and a
rerun over the same corpus with that ledger selects nothing — the record is
never retried. -/
theorem c1_counterexample :
    (VagasBot.send_new_jobs [] [jobAcme1] (fun _ => false)).1 = [] ∧
    (VagasBot.send_new_jobs [] [jobAcme1] (fun _ => false)).2 =
      [VagasBot.create_job_id jobAcme1] ∧
    (VagasBot.selectNewJobs
      (VagasBot.send_new_jobs [] [jobAcme1] (fun _ => false)).2 [jobAcme1]).1
      = [] := by decide

/-- C1 (amended): the persisted delivery ledger after `send_new_jobs` is
exactly the ledger produced by the selection loop — independent of which
deliveries succeed — and in particular the key of every selected record,
including every record whose delivery failed, is in the persisted ledger
(so such a record is not retried on the next run). -/
theorem c1_ledger_updated_before_delivery :
    ∀ (sent : List Str) (jobs : List JobDict) (deliver : JobDict → Bool),
      (VagasBot.send_new_jobs sent jobs deliver).2 =
        (VagasBot.selectNewJobs sent jobs).2 ∧
      ∀ j ∈ (VagasBot.selectNewJobs sent jobs).1,
        VagasBot.create_job_id j ∈ (VagasBot.send_new_jobs sent jobs deliver).2 := by
  intro sent jobs deliver
  unfold VagasBot.send_new_jobs
  by_cases h : (VagasBot.selectNewJobs sent jobs).1.isEmpty
  · have hnil : (VagasBot.selectNewJobs sent jobs).1 = [] := by
      simpa [List.isEmpty_iff] using h
    refine ⟨?_, ?_⟩
    · simp [h, VagasBot.selectNewJobs_fst_nil_snd jobs sent hnil]
    · intro j hj; rw [hnil] at hj; cases hj
  · refine ⟨by simp [h], ?_⟩
    intro j hj
    simpa [h] using VagasBot.selectNewJobs_id_mem_snd jobs sent j hj

/-- C1 witness: the amended theorem applied at the concrete failing run. -/
theorem c1_witness :
    VagasBot.create_job_id jobAcme1 ∈
      (VagasBot.send_new_jobs [] [jobAcme1] (fun _ => false)).2 :=
  (c1_ledger_updated_before_delivery [] [jobAcme1] (fun _ => false)).2
    jobAcme1 (by decide)

/-! ## Claim C2: does a failing source abort the orchestration? -/

/-- C2 counterexample.  The claim says a failing source does not abort the
orchestration and every remaining source still executes (so with three
configured sources the recorded per-source results would be
`[[], [jobAcme1], []]`).  In the code the three phases share one `try`
block: when the first source raises, `run_all_scrapers` records no results
at all and re-raises the error — the remaining two sources never run. -/
theorem c2_counterexample :
    MainScraper.run_all_scrapers
      [Except.error (str "WebDriverException"),
       Except.ok [jobAcme1], Except.ok []] =
      ([], some (str "WebDriverException")) ∧
    (MainScraper.run_all_scrapers
      [Except.error (str "WebDriverException"),
       Except.ok [jobAcme1], Except.ok []]).1 ≠ [[], [jobAcme1], []] := by
  decide

/-- C2 (amended): when any source raises, the Orchestrator keeps exactly
the results of the sources that completed before it, propagates that
source's error, and does not execute the remaining sources. -/
theorem c2_failing_source_aborts :
    ∀ (pre : List (List JobDict)) (e : Str)
      (post : List (Except Str (List JobDict))),
      MainScraper.run_all_scrapers
        (pre.map Except.ok ++ Except.error e :: post) = (pre, some e) := by
  intro pre e post
  induction pre with
  | nil => simp [MainScraper.run_all_scrapers]
  | cons p ps ih => simp [MainScraper.run_all_scrapers, ih]

/-! ## Claim C4: atomicity of persistence writes -/

/-- C4 counterexample.  The claim says every persistence write of the
delivery ledger goes through a temporary file and a single replace, so a
crash mid-write leaves the prior snapshot readable.  `save_sent_jobs`
instead truncates the ledger file in place: the crash state in which the
file has been truncated but nothing written yet is observable, and its
content is neither the old snapshot nor the new one. -/
theorem c4_counterexample :
    ({ final := some [], tmp := none } : FileState) ∈
      saveSentJobsSteps { final := some (str "oldledger"), tmp := none }
        (str "newledger") ∧
    (some [] : Option Str) ≠ some (str "oldledger") ∧
    (some [] : Option Str) ≠ some (str "newledger") := by decide

/-- C4 (amended): the checkpoint write `_atomic_write_json` is atomic — at
every crash point of its step sequence the readable snapshot is either the
prior content or the complete new content — while the delivery-ledger write
`save_sent_jobs` is an in-place truncating write (see the counterexample). -/
theorem c4_atomic_write_crash_safe :
    ∀ (fs : FileState) (data : Str) (s : FileState),
      s ∈ atomicWriteSteps fs data →
      s.final = fs.final ∨ s.final = some data := by
  intro fs data s hs
  simp only [atomicWriteSteps, List.mem_append, List.mem_map,
    List.mem_range, List.mem_singleton] at hs
  rcases hs with ⟨k, _, rfl⟩ | rfl
  · exact Or.inl rfl
  · exact Or.inr rfl

/-- C4 witness: the atomicity theorem applied at a concrete mid-write
crash state. -/
theorem c4_witness :
    ({ final := some (str "old"), tmp := some [] } : FileState).final =
      some (str "old") ∨
    ({ final := some (str "old"), tmp := some [] } : FileState).final =
      some (str "new") :=
  c4_atomic_write_crash_safe { final := some (str "old"), tmp := none }
    (str "new") { final := some (str "old"), tmp := some [] } (by decide)

/-! ## Claim C5: does normalization reject empty titles? -/

/-- C5 counterexample.  The claim says every record returned by
normalization has a non-empty title.  Gupy's `_extract_job_info` accepts a
card whose title element is missing as long as the job link is present:
it returns a record whose `nome` is `None`. -/
theorem c5_counterexample :
    GupyScraper._extract_job_info gNoTitleCard GupyScraper.base_url =
      some jNoTitle ∧ jNoTitle.nome = none := by decide

/-- C5 (amended): Indeed's `_extract_job_info` rejects empty titles — every
record it returns has a non-empty `nome` — but Gupy's `_extract_job_info`
rejects exactly the cards without a link element or with an empty href,
regardless of the title. -/
theorem c5_title_rejection :
    (∀ (c : IndeedScraper.IndeedCard) (j : JobDict),
        IndeedScraper._extract_job_info c = some j →
        ∃ n, j.nome = some n ∧ n ≠ []) ∧
    (∀ (c : GupyScraper.GupyCard) (base : Str),
        GupyScraper._extract_job_info c base = none ↔
        (c.hasLink = false ∨ c.href = [])) := by
  constructor
  · intro c j h
    unfold IndeedScraper._extract_job_info at h
    by_cases ht : c.hasTitleA
    · simp only [ht, if_true] at h
      by_cases hn : (c.titleText).isEmpty
      · simp [hn] at h
      · simp only [hn, Bool.false_eq_true, if_false] at h
        cases h
        exact ⟨c.titleText, rfl, by simpa [List.isEmpty_iff] using hn⟩
    · simp [ht] at h
  · intro c base
    by_cases h1 : c.hasLink
    · by_cases h2 : c.href = []
      · simp [GupyScraper._extract_job_info, h1, h2]
      · simp [GupyScraper._extract_job_info, h1, h2, List.isEmpty_iff]
    · have h1f : c.hasLink = false := by simpa using h1
      simp [GupyScraper._extract_job_info, h1f]

/-- C5 witness: the Indeed half applied at a concrete card. -/
theorem c5_witness : ∃ n, jPleno.nome = some n ∧ n ≠ [] :=
  c5_title_rejection.1 iPlenoCard jPleno (by decide)

/-! ## Claim C8: one identity key for dedup and delivery? -/

/-- C8 counterexample.  The claim says records with equal
(platform, company, title) get equal identity keys for both deduplication
and delivery tracking.  `jobAcme1` and `jobAcme2` agree on `plataforma`,
`empresa`, `titulo` and `nome`, yet their dedup keys (the links) differ
and `deduplicate_jobs` keeps both. -/
theorem c8_counterexample :
    jobAcme1.plataforma = jobAcme2.plataforma ∧
    jobAcme1.empresa = jobAcme2.empresa ∧
    jobAcme1.titulo = jobAcme2.titulo ∧
    jobAcme1.nome = jobAcme2.nome ∧
    gupyKeyOf jobAcme1 ≠ gupyKeyOf jobAcme2 ∧
    deduplicate_jobs [jobAcme1, jobAcme2] = [jobAcme1, jobAcme2] := by decide

/-- C8 (amended): the delivery-tracking key `create_job_id` is determined
by the (plataforma, empresa, titulo) triple, so records agreeing on those
fields get the same delivery key; the deduplication key, by contrast, is
derived from the record's link and can differ for such records. -/
theorem c8_delivery_key_of_triple :
    ∀ j1 j2 : JobDict, j1.plataforma = j2.plataforma →
      j1.empresa = j2.empresa → j1.titulo = j2.titulo →
      VagasBot.create_job_id j1 = VagasBot.create_job_id j2 := by
  intro j1 j2 h1 h2 h3
  simp [VagasBot.create_job_id, h1, h2, h3]

/-- C8 witness: the amended theorem applied at the concrete record pair. -/
theorem c8_witness :
    VagasBot.create_job_id jobAcme1 = VagasBot.create_job_id jobAcme2 :=
  c8_delivery_key_of_triple jobAcme1 jobAcme2 rfl rfl rfl

/-! ## Claim C9: the delivery id of scraper records -/

/-- C9: scraper-produced records carry the title under `nome` and no
`titulo`/`plataforma` keys, so `create_job_id` collapses to a function of
`empresa` alone; and the selection loop of `send_new_jobs` never delivers
two records with the same id, so at most one posting per company is ever
delivered. -/
theorem c9_job_id_depends_only_on_company :
    (∀ (c : GupyScraper.GupyCard) (base : Str) (j : JobDict),
        GupyScraper._extract_job_info c base = some j →
        j.titulo = none ∧ j.plataforma = none) ∧
    (∀ j1 j2 : JobDict, j1.titulo = none → j2.titulo = none →
        j1.plataforma = none → j2.plataforma = none →
        j1.empresa = j2.empresa →
        VagasBot.create_job_id j1 = VagasBot.create_job_id j2) ∧
    (∀ (sent : List Str) (jobs : List JobDict) (deliver : JobDict → Bool),
        ((VagasBot.send_new_jobs sent jobs deliver).1).Pairwise
          (fun a b => VagasBot.create_job_id a ≠ VagasBot.create_job_id b)) := by
  refine ⟨?_, ?_, ?_⟩
  · intro c base j h
    simp only [GupyScraper._extract_job_info] at h
    split at h
    · cases h
    · split at h
      · cases h
      · cases h
        exact ⟨rfl, rfl⟩
  · intro j1 j2 h1 h2 h3 h4 h5
    simp [VagasBot.create_job_id, h1, h2, h3, h4, h5]
  · intro sent jobs deliver
    unfold VagasBot.send_new_jobs
    by_cases h : (VagasBot.selectNewJobs sent jobs).1.isEmpty
    · simp [h]
    · simp only [h, Bool.false_eq_true, if_false]
      exact List.Pairwise.sublist (List.filter_sublist _)
        (VagasBot.selectNewJobs_pairwise_ids jobs sent)

/-- C9 witness: two distinct concrete postings from the same company get
the same delivery id. -/
theorem c9_witness :
    VagasBot.create_job_id jobAcme1 = VagasBot.create_job_id jobAcme2 ∧
    jobAcme1 ≠ jobAcme2 :=
  ⟨c9_job_id_depends_only_on_company.2.1 jobAcme1 jobAcme2 rfl rfl rfl rfl rfl,
   by decide⟩

/-! ## Helper lemmas about the Gupy dedup loop -/

theorem gupyDedupGo_sublist (L : List JobDict) :
    ∀ seen, (gupyDedupGo seen L).Sublist L := by
  induction L with
  | nil => intro seen; simp [gupyDedupGo]
  | cons j rest ih =>
    intro seen
    cases hk : gupyKeyOf j with
    | none => simpa [gupyDedupGo, hk] using (ih seen).cons j
    | some k =>
      by_cases hs : k ∈ seen
      · simpa [gupyDedupGo, hk, hs] using (ih seen).cons j
      · simpa [gupyDedupGo, hk, hs] using (ih (k :: seen)).cons₂ j

theorem gupyDedupGo_mem (L : List JobDict) :
    ∀ seen j, j ∈ gupyDedupGo seen L ↔
      ∃ s, gupyKeyOf j = some s ∧ s ∉ seen ∧ findFirstWithKey s L = some j := by
  induction L with
  | nil => intro seen j; simp [gupyDedupGo, findFirstWithKey]
  | cons j0 rest ih =>
    intro seen j
    cases hk : gupyKeyOf j0 with
    | none =>
      simp only [gupyDedupGo, hk]
      rw [ih seen j]
      apply exists_congr; intro s
      simp [findFirstWithKey, hk]
    | some k =>
      by_cases hs : k ∈ seen
      · simp only [gupyDedupGo, hk, hs, if_pos]
        rw [ih seen j]
        apply exists_congr; intro s
        constructor
        · rintro ⟨h1, h2, h3⟩
          have hne : gupyKeyOf j0 ≠ some s := by
            rw [hk]; intro h; cases h; exact h2 hs
          exact ⟨h1, h2, by simp [findFirstWithKey, hne, h3]⟩
        · rintro ⟨h1, h2, h3⟩
          have hne : gupyKeyOf j0 ≠ some s := by
            rw [hk]; intro h; cases h; exact h2 hs
          simp only [findFirstWithKey, hne, if_neg] at h3
          exact ⟨h1, h2, h3⟩
      · simp only [gupyDedupGo, hk, hs, if_neg, not_false_eq_true, List.mem_cons]
        constructor
        · rintro (rfl | hmem)
          · exact ⟨k, hk, hs, by simp [findFirstWithKey, hk]⟩
          · obtain ⟨s, h1, h2, h3⟩ := (ih (k :: seen) j).mp hmem
            have hsk : s ≠ k := by
              intro h; subst h; exact h2 (List.mem_cons_self _ _)
            have hne : gupyKeyOf j0 ≠ some s := by
              rw [hk]; intro h; cases h; exact hsk rfl
            refine ⟨s, h1, fun hc => h2 (List.mem_cons_of_mem _ hc), ?_⟩
            simp [findFirstWithKey, hne, h3]
        · rintro ⟨s, h1, h2, h3⟩
          by_cases heq : gupyKeyOf j0 = some s
          · simp only [findFirstWithKey, heq, if_pos] at h3
            cases h3
            exact Or.inl rfl
          · simp only [findFirstWithKey, heq, if_neg] at h3
            refine Or.inr ((ih (k :: seen) j).mpr ⟨s, h1, ?_, h3⟩)
            intro hc
            rcases List.mem_cons.mp hc with rfl | hc
            · rw [hk] at heq; exact heq rfl
            · exact h2 hc

theorem gupyDedupGo_pairwise (L : List JobDict) :
    ∀ seen, (gupyDedupGo seen L).Pairwise
      (fun a b => gupyKeyOf a ≠ gupyKeyOf b) := by
  induction L with
  | nil => intro seen; simp [gupyDedupGo]
  | cons j0 rest ih =>
    intro seen
    cases hk : gupyKeyOf j0 with
    | none => simpa [gupyDedupGo, hk] using ih seen
    | some k =>
      by_cases hs : k ∈ seen
      · simpa [gupyDedupGo, hk, hs] using ih seen
      · simp only [gupyDedupGo, hk, hs, if_neg, not_false_eq_true]
        refine List.Pairwise.cons ?_ (ih (k :: seen))
        intro b hb
        obtain ⟨s, h1, h2, _⟩ := (gupyDedupGo_mem rest (k :: seen) b).mp hb
        rw [hk, h1]
        intro h; cases h
        exact h2 (List.mem_cons_self _ _)

theorem gupyDedupGo_fixed (M : List JobDict) :
    ∀ seen, (∀ j ∈ M, ∃ s, gupyKeyOf j = some s ∧ s ∉ seen) →
      M.Pairwise (fun a b => gupyKeyOf a ≠ gupyKeyOf b) →
      gupyDedupGo seen M = M := by
  induction M with
  | nil => intro seen _ _; simp [gupyDedupGo]
  | cons j rest ih =>
    intro seen hkeys hpw
    obtain ⟨s, hs1, hs2⟩ := hkeys j (List.mem_cons_self _ _)
    have hpw' := List.pairwise_cons.mp hpw
    simp only [gupyDedupGo, hs1, hs2, if_neg, not_false_eq_true]
    congr 1
    refine ih (s :: seen) ?_ hpw'.2
    intro x hx
    obtain ⟨t, ht1, ht2⟩ := hkeys x (List.mem_cons_of_mem _ hx)
    refine ⟨t, ht1, ?_⟩
    intro hc
    rcases List.mem_cons.mp hc with rfl | hc
    · exact hpw'.1 x hx (by rw [hs1, ht1])
    · exact ht2 hc

/-! ## Helper lemmas about URL normalization and the Indeed dedup loop -/

theorem takeWhile_idem (p : Char → Bool) (l : Str) :
    (l.takeWhile p).takeWhile p = l.takeWhile p := by
  induction l with
  | nil => simp
  | cons c cs ih =>
    by_cases hp : p c
    · simp [List.takeWhile_cons, hp, ih]
    · simp [List.takeWhile_cons, hp]

theorem stripQueryFrag_idem (s : Str) :
    stripQueryFrag (stripQueryFrag s) = stripQueryFrag s :=
  takeWhile_idem _ s

theorem _normalize_url_truthy_fix (u : Option Str) :
    strTruthy (_normalize_url u) = true →
    _normalize_url (_normalize_url u) = _normalize_url u := by
  intro htr
  cases u with
  | none => simp [_normalize_url, strTruthy] at htr
  | some s =>
    by_cases hs : s.isEmpty
    · simp [_normalize_url, hs, strTruthy] at htr
    · by_cases hv : containsStr (str "indeed.com/viewjob") s ∧ containsStr (str "jk=") s
      · simp [_normalize_url, hs, hv.1, hv.2]
      · have hv' : ¬(containsStr (str "indeed.com/viewjob") s &&
            containsStr (str "jk=") s) = true := by
          simpa [Bool.and_eq_true] using hv
        simp only [_normalize_url, hs, Bool.false_eq_true, if_false, hv',
          if_neg] at htr ⊢
        have hne : (stripQueryFrag s).isEmpty = false := by
          simpa [strTruthy] using htr
        by_cases hv2 : containsStr (str "indeed.com/viewjob") (stripQueryFrag s) &&
            containsStr (str "jk=") (stripQueryFrag s)
        · simp [hne, hv2]
        · simp [hne, hv2, stripQueryFrag_idem]

theorem indeedRewrite_key (j : JobDict) :
    indeedKey (indeedRewrite j) = indeedKey j := by
  by_cases htr : strTruthy (_normalize_url j.url)
  · have hfix := _normalize_url_truthy_fix j.url htr
    simp only [indeedRewrite, htr, if_pos, indeedKey, hfix]
  · simp [indeedRewrite, htr]

theorem indeedRewrite_idem (j : JobDict) :
    indeedRewrite (indeedRewrite j) = indeedRewrite j := by
  by_cases htr : strTruthy (_normalize_url j.url)
  · have hfix := _normalize_url_truthy_fix j.url htr
    simp only [indeedRewrite, htr, if_pos, hfix]
  · simp [indeedRewrite, htr]

theorem indeedDedupGo_sublist (L : List JobDict) :
    ∀ seen, (indeedDedupGo seen L).Sublist (L.map indeedRewrite) := by
  induction L with
  | nil => intro seen; simp [indeedDedupGo]
  | cons j rest ih =>
    intro seen
    by_cases hs : indeedKey j ∈ seen
    · simpa [indeedDedupGo, hs] using (ih seen).cons (indeedRewrite j)
    · simpa [indeedDedupGo, hs] using (ih (indeedKey j :: seen)).cons₂ (indeedRewrite j)

theorem indeedDedupGo_mem (L : List JobDict) :
    ∀ seen j, j ∈ indeedDedupGo seen L ↔
      indeedKey j ∉ seen ∧
      ∃ r, findFirstWithIKey (indeedKey j) L = some r ∧ j = indeedRewrite r := by
  induction L with
  | nil => intro seen j; simp [indeedDedupGo, findFirstWithIKey]
  | cons j0 rest ih =>
    intro seen j
    by_cases hs : indeedKey j0 ∈ seen
    · simp only [indeedDedupGo, hs, if_pos]
      rw [ih seen j]
      constructor
      · rintro ⟨h1, r, h2, h3⟩
        have hne : indeedKey j0 ≠ indeedKey j := by
          intro h; rw [h] at hs; exact h1 hs
        exact ⟨h1, r, by simp [findFirstWithIKey, hne, h2], h3⟩
      · rintro ⟨h1, r, h2, h3⟩
        have hne : indeedKey j0 ≠ indeedKey j := by
          intro h; rw [h] at hs; exact h1 hs
        simp only [findFirstWithIKey, hne, if_neg] at h2
        exact ⟨h1, r, h2, h3⟩
    · simp only [indeedDedupGo, hs, if_neg, not_false_eq_true, List.mem_cons]
      constructor
      · rintro (rfl | hmem)
        · refine ⟨by rw [indeedRewrite_key]; exact hs, j0, ?_, rfl⟩
          simp [findFirstWithIKey, indeedRewrite_key]
        · obtain ⟨h1, r, h2, h3⟩ := (ih (indeedKey j0 :: seen) j).mp hmem
          have hne : indeedKey j0 ≠ indeedKey j := by
            intro h; exact h1 (h ▸ List.mem_cons_self _ _)
          refine ⟨fun hc => h1 (List.mem_cons_of_mem _ hc), r, ?_, h3⟩
          simp [findFirstWithIKey, hne, h2]
      · rintro ⟨h1, r, h2, h3⟩
        by_cases heq : indeedKey j0 = indeedKey j
        · simp only [findFirstWithIKey, heq, if_pos] at h2
          cases h2
          exact Or.inl (by rw [h3])
        · simp only [findFirstWithIKey, heq, if_neg] at h2
          refine Or.inr ((ih (indeedKey j0 :: seen) j).mpr ⟨?_, r, h2, h3⟩)
          intro hc
          rcases List.mem_cons.mp hc with hc | hc
          · exact heq hc.symm
          · exact h1 hc

theorem indeedDedupGo_pairwise (L : List JobDict) :
    ∀ seen, (indeedDedupGo seen L).Pairwise
      (fun a b => indeedKey a ≠ indeedKey b) := by
  induction L with
  | nil => intro seen; simp [indeedDedupGo]
  | cons j0 rest ih =>
    intro seen
    by_cases hs : indeedKey j0 ∈ seen
    · simpa [indeedDedupGo, hs] using ih seen
    · simp only [indeedDedupGo, hs, if_neg, not_false_eq_true]
      refine List.Pairwise.cons ?_ (ih (indeedKey j0 :: seen))
      intro b hb
      obtain ⟨h1, _⟩ := (indeedDedupGo_mem rest (indeedKey j0 :: seen) b).mp hb
      rw [indeedRewrite_key]
      intro h
      exact h1 (h ▸ List.mem_cons_self _ _)

theorem indeedDedupGo_fixed (M : List JobDict) :
    ∀ seen, (∀ j ∈ M, indeedKey j ∉ seen ∧ indeedRewrite j = j) →
      M.Pairwise (fun a b => indeedKey a ≠ indeedKey b) →
      indeedDedupGo seen M = M := by
  induction M with
  | nil => intro seen _ _; simp [indeedDedupGo]
  | cons j rest ih =>
    intro seen hkeys hpw
    obtain ⟨hs1, hs2⟩ := hkeys j (List.mem_cons_self _ _)
    have hpw' := List.pairwise_cons.mp hpw
    simp only [indeedDedupGo, hs1, if_neg, not_false_eq_true, hs2]
    congr 1
    refine ih (indeedKey j :: seen) ?_ hpw'.2
    intro x hx
    obtain ⟨ht1, ht2⟩ := hkeys x (List.mem_cons_of_mem _ hx)
    refine ⟨?_, ht2⟩
    intro hc
    rcases List.mem_cons.mp hc with hc | hc
    · exact hpw'.1 x hx hc.symm
    · exact ht1 hc

/-! ## Claim C6: dedupe keeps exactly the first occurrence per key -/

/-- C6: both dedup variants are stable and order-preserving and keep
exactly the first occurrence of each identity key.  For
`deduplicate_jobs` (Gupy), the output is a sublist of the input (order
preserved), a record is in the output precisely when it is the first
record of the input carrying its key, and no two output records share a
key.  For `_deduplicate_jobs` (Indeed), the same holds up to the
documented URL rewrite of each kept record: the output is a sublist of the
rewritten input, and a record is in the output precisely when it is the
rewrite of the first input record carrying its key. -/
theorem c6_dedupe_first_occurrence :
    (∀ L : List JobDict,
       (deduplicate_jobs L).Sublist L ∧
       (∀ j, j ∈ deduplicate_jobs L ↔
          ∃ s, gupyKeyOf j = some s ∧ findFirstWithKey s L = some j) ∧
       (deduplicate_jobs L).Pairwise
         (fun a b => gupyKeyOf a ≠ gupyKeyOf b)) ∧
    (∀ L : List JobDict,
       (_deduplicate_jobs L).Sublist (L.map indeedRewrite) ∧
       (∀ j, j ∈ _deduplicate_jobs L ↔
          ∃ r, findFirstWithIKey (indeedKey j) L = some r ∧
            j = indeedRewrite r) ∧
       (_deduplicate_jobs L).Pairwise
         (fun a b => indeedKey a ≠ indeedKey b)) := by
  constructor
  · intro L
    refine ⟨gupyDedupGo_sublist L [], ?_, gupyDedupGo_pairwise L []⟩
    intro j
    rw [deduplicate_jobs, gupyDedupGo_mem L [] j]
    apply exists_congr; intro s
    simp
  · intro L
    refine ⟨indeedDedupGo_sublist L [], ?_, indeedDedupGo_pairwise L []⟩
    intro j
    rw [_deduplicate_jobs, indeedDedupGo_mem L [] j]
    simp

/-- C6 witness: the characterization applied at a concrete duplicated
list — the duplicate's first occurrence is in the output. -/
theorem c6_witness :
    jobAcme1 ∈ deduplicate_jobs [jobAcme1, jobAcme1] :=
  ((c6_dedupe_first_occurrence.1 [jobAcme1, jobAcme1]).2.1 jobAcme1).mpr
    ⟨str "https://portal.gupy.io/vaga/1", by decide, by decide⟩

/-! ## Claim C7: dedupe is idempotent -/

/-- C7: both dedup variants are idempotent — rerunning them on their own
output is the identity, including the Indeed variant that rewrites each
kept record's URL to its normalized form. -/
theorem c7_dedupe_idempotent :
    (∀ L : List JobDict,
       deduplicate_jobs (deduplicate_jobs L) = deduplicate_jobs L) ∧
    (∀ L : List JobDict,
       _deduplicate_jobs (_deduplicate_jobs L) = _deduplicate_jobs L) := by
  constructor
  · intro L
    apply gupyDedupGo_fixed
    · intro j hj
      obtain ⟨s, h1, _, _⟩ := (gupyDedupGo_mem L [] j).mp hj
      exact ⟨s, h1, by simp⟩
    · exact gupyDedupGo_pairwise L []
  · intro L
    apply indeedDedupGo_fixed
    · intro j hj
      obtain ⟨_, r, _, h3⟩ := (indeedDedupGo_mem L [] j).mp hj
      refine ⟨by simp, ?_⟩
      rw [h3, indeedRewrite_idem]
    · exact indeedDedupGo_pairwise L []

/-! ## Helper lemmas about the Gupy page loop -/

theorem gupyCardStep_fst (cutoff : Int) (c : GupyScraper.GupyCard) :
    (GupyScraper.cardStep cutoff c).1 =
      (GupyScraper._extract_job_info c GupyScraper.base_url).bind
        (fun j => if gupyKeep cutoff j then some j else none) := by
  unfold GupyScraper.cardStep
  cases hx : GupyScraper._extract_job_info c GupyScraper.base_url with
  | none => simp
  | some j =>
    by_cases hl : strTruthy j.link
    · by_cases hsn : GupyScraper.seniorName j.nome
      · simp [hl, hsn, gupyKeep]
      · cases hd : j.dataPublicacao with
        | none =>
          cases hno : j.nome with
          | none => simp [hl, hsn, hd, hno, gupyKeep, GupyScraper.nomePrintRaises]
          | some nm =>
            rw [hno] at hsn
            simp [hl, hsn, hd, hno, gupyKeep, GupyScraper.nomePrintRaises]
        | some d =>
          by_cases hlt : d < cutoff
          · cases hno : j.nome with
            | none => simp [hl, hsn, hd, hlt, hno, gupyKeep, GupyScraper.nomePrintRaises]
            | some nm =>
              rw [hno] at hsn
              simp [hl, hsn, hd, hlt, hno, gupyKeep, GupyScraper.nomePrintRaises]
          · cases hno : j.nome with
            | none => simp [hl, hsn, hd, hlt, hno, gupyKeep, GupyScraper.nomePrintRaises]
            | some nm =>
              rw [hno] at hsn
              simp [hl, hsn, hd, hlt, hno, gupyKeep, GupyScraper.nomePrintRaises]
    · simp [hl, gupyKeep]

theorem gupyCardStep_snd (cutoff : Int) (c : GupyScraper.GupyCard) :
    (GupyScraper.cardStep cutoff c).2 = true ↔
      ∃ j, GupyScraper._extract_job_info c GupyScraper.base_url = some j ∧
        gupyStale cutoff j = true := by
  unfold GupyScraper.cardStep
  cases hx : GupyScraper._extract_job_info c GupyScraper.base_url with
  | none => simp
  | some j =>
    by_cases hl : strTruthy j.link
    · by_cases hsn : GupyScraper.seniorName j.nome
      · simp [hl, hsn, gupyStale]
      · cases hd : j.dataPublicacao with
        | none =>
          cases hno : j.nome with
          | none => simp [hl, hsn, hd, hno, gupyStale, GupyScraper.nomePrintRaises]
          | some nm =>
            rw [hno] at hsn
            simp [hl, hsn, hd, hno, gupyStale, GupyScraper.nomePrintRaises]
        | some d =>
          by_cases hlt : d < cutoff
          · cases hno : j.nome with
            | none => simp [hl, hsn, hd, hlt, hno, gupyStale, GupyScraper.nomePrintRaises]
            | some nm =>
              rw [hno] at hsn
              simp [hl, hsn, hd, hlt, hno, gupyStale, GupyScraper.nomePrintRaises]
          · cases hno : j.nome with
            | none => simp [hl, hsn, hd, hlt, hno, gupyStale, GupyScraper.nomePrintRaises]
            | some nm =>
              rw [hno] at hsn
              simp [hl, hsn, hd, hlt, hno, gupyStale, GupyScraper.nomePrintRaises]
    · simp [hl, gupyStale]

theorem gupyProcessPage_fst (cutoff : Int) (cards : List GupyScraper.GupyCard) :
    (GupyScraper.processPage cutoff cards).1 =
      (cards.filterMap
        (fun c => GupyScraper._extract_job_info c GupyScraper.base_url)).filter
        (gupyKeep cutoff) := by
  induction cards with
  | nil => simp [GupyScraper.processPage]
  | cons c cs ih =>
    simp only [GupyScraper.processPage, List.filterMap_cons]
    rw [gupyCardStep_fst, ih]
    cases hx : GupyScraper._extract_job_info c GupyScraper.base_url with
    | none => simp
    | some j =>
      by_cases hk : gupyKeep cutoff j
      · simp [hk, List.filter_cons]
      · simp [hk, List.filter_cons]

theorem gupyProcessPage_snd (cutoff : Int) (cards : List GupyScraper.GupyCard) :
    (GupyScraper.processPage cutoff cards).2 = true ↔
      ∃ c ∈ cards, ∃ j,
        GupyScraper._extract_job_info c GupyScraper.base_url = some j ∧
        gupyStale cutoff j = true := by
  induction cards with
  | nil => simp [GupyScraper.processPage]
  | cons c cs ih =>
    simp only [GupyScraper.processPage, Bool.or_eq_true, ih,
      gupyCardStep_snd, List.mem_cons]
    constructor
    · rintro (⟨j, h1, h2⟩ | ⟨c0, hc0, j, h1, h2⟩)
      · exact ⟨c, Or.inl rfl, j, h1, h2⟩
      · exact ⟨c0, Or.inr hc0, j, h1, h2⟩
    · rintro ⟨c0, hc0 | hc0, j, h1, h2⟩
      · subst hc0; exact Or.inl ⟨j, h1, h2⟩
      · exact Or.inr ⟨c0, hc0, j, h1, h2⟩

/-! ## Claim C3: the recency-cutoff stopping rule -/

/-- C3 counterexample.  `gOldCard`'s record is dated 1, older than the
cutoff 10, so by the claim it must be excluded while `gSeniorCard`'s
record — dated 20, within the cutoff — must be kept on the same page.  The
code instead drops the within-cutoff record too, because its title
contains `senior`: the crawl returns nothing. -/
theorem c3_counterexample :
    GupyScraper._extract_job_info gOldCard GupyScraper.base_url = some jOld ∧
    jOld.dataPublicacao = some 1 ∧ ((1 : Int) < 10) = True ∧
    GupyScraper._extract_job_info gSeniorCard GupyScraper.base_url =
      some jSenior ∧
    jSenior.dataPublicacao = some 20 ∧ ((20 : Int) < 10) = False ∧
    GupyScraper.scrape_jobs 10 5 [[gOldCard, gSeniorCard]] = [] := by decide

/-- C3 (amended): on a fetched page containing a record that reaches the
date check with a present title (truthy link, title not Senior/SR-filtered,
`nome` not `None` — a `None` title makes the branch print raise `TypeError`,
caught by the per-card handler, so such records are always dropped and
never set the stale flag) and is older than the cutoff, the crawl stops
after that page — no further page is requested — and returns exactly the
page's extracted records that pass the keep rule: truthy link, present
title not matching the Senior/SR substring filter, and date absent or
within the cutoff.  In particular the stale record is excluded, non-senior
titled within-cutoff records on the same page are kept, and titled records
with absent dates are kept. -/
theorem c3_cutoff_stops_crawl :
    ∀ (cutoff : Int) (maxP : Nat) (cards : List GupyScraper.GupyCard)
      (rest : List (List GupyScraper.GupyCard)),
      cards ≠ [] →
      (∃ c ∈ cards, ∃ j,
        GupyScraper._extract_job_info c GupyScraper.base_url = some j ∧
        gupyStale cutoff j = true) →
      GupyScraper.scrape_jobs cutoff (maxP + 1) (cards :: rest) =
        (cards.filterMap
          (fun c => GupyScraper._extract_job_info c GupyScraper.base_url)).filter
          (gupyKeep cutoff) := by
  intro cutoff maxP cards rest hne hstale
  have hempty : cards.isEmpty = false := by
    cases cards with
    | nil => exact absurd rfl hne
    | cons c cs => rfl
  have hsnd : (GupyScraper.processPage cutoff cards).2 = true :=
    (gupyProcessPage_snd cutoff cards).mpr hstale
  unfold GupyScraper.scrape_jobs GupyScraper.scrapeAux
  simp [hempty, hsnd, gupyProcessPage_fst]

/-- C3 witness: the amended theorem applied at a concrete two-page crawl —
the first page holds one stale and one fresh record; the fresh record is
returned and the second page is never fetched. -/
theorem c3_witness :
    GupyScraper.scrape_jobs 10 (4 + 1) [[gOldCard, gFreshCard], [gSeniorCard]] =
      [jFresh] :=
  (c3_cutoff_stops_crawl 10 4 [gOldCard, gFreshCard] [[gSeniorCard]]
    (by decide) ⟨gOldCard, by decide, jOld, by decide, by decide⟩).trans
    (by decide)

/-- The `TypeError` path of the page loop, concretely: `gNoTitleOldCard`'s
record is stale (dated 1, cutoff 10) but has `nome = None`, so the
stale-branch print raises and the per-card handler drops it without
setting the stale flag — the crawl proceeds to the second page and
returns its fresh record. -/
theorem gupyNoneTitleStaleDropped :
    GupyScraper.scrape_jobs 10 5 [[gNoTitleOldCard], [gFreshCard]] =
      [jFresh] ∧
    (GupyScraper._extract_job_info gNoTitleOldCard GupyScraper.base_url).map
      (fun j => j.nome) = some none := by decide

/-! ## Claim C10: the undocumented seniority exclusion -/

theorem gupyScrapeAux_senior (cutoff : Int) :
    ∀ (n : Nat) (pages : List (List GupyScraper.GupyCard)) (j : JobDict),
      j ∈ GupyScraper.scrapeAux cutoff n pages →
      GupyScraper.seniorName j.nome = false := by
  intro n
  induction n with
  | zero => intro pages j h; simp [GupyScraper.scrapeAux] at h
  | succ n ih =>
    intro pages j h
    cases pages with
    | nil => simp [GupyScraper.scrapeAux] at h
    | cons cards rest =>
      unfold GupyScraper.scrapeAux at h
      by_cases hempty : cards.isEmpty
      · simp [hempty] at h
      · simp only [hempty, Bool.false_eq_true, if_false] at h
        have hpage : ∀ j' ∈ (GupyScraper.processPage cutoff cards).1,
            GupyScraper.seniorName j'.nome = false := by
          intro j' hj'
          rw [gupyProcessPage_fst] at hj'
          have hk := List.of_mem_filter hj'
          simp only [gupyKeep, Bool.and_eq_true] at hk
          simpa using hk.1.1.2
        by_cases hold : (GupyScraper.processPage cutoff cards).2
        · rw [if_pos hold] at h
          exact hpage j h
        · rw [if_neg hold] at h
          rcases List.mem_append.mp h with h | h
          · exact hpage j h
          · by_cases hrest : rest.isEmpty
            · simp [hrest] at h
            · simp only [hrest, Bool.false_eq_true, if_false] at h
              exact ih rest j h

theorem indeedCardStep_senior (c : IndeedScraper.IndeedCard) (j : JobDict) :
    IndeedScraper.cardStep true c = some j →
    IndeedScraper.seniorName j.nome = false := by
  intro h
  unfold IndeedScraper.cardStep at h
  cases hx : IndeedScraper._extract_job_info c with
  | none => rw [hx] at h; cases h
  | some j0 =>
    rw [hx] at h
    by_cases hsn : IndeedScraper.seniorName j0.nome
    · simp [hsn] at h
    · simp only [hsn, Bool.and_false, Bool.false_eq_true, if_false] at h
      cases h
      simpa using hsn

theorem indeedScrapeGo_senior :
    ∀ (pages : List IndeedScraper.IndeedPage) (j : JobDict),
      j ∈ IndeedScraper.scrapeGo true pages →
      IndeedScraper.seniorName j.nome = false := by
  intro pages
  induction pages with
  | nil => intro j h; simp [IndeedScraper.scrapeGo] at h
  | cons p rest ih =>
    intro j h
    cases p with
    | timeout => exact ih j (by simpa [IndeedScraper.scrapeGo] using h)
    | cards cs =>
      unfold IndeedScraper.scrapeGo at h
      by_cases hempty : cs.isEmpty
      · simp [hempty] at h
      · simp only [hempty, Bool.false_eq_true, if_false] at h
        rcases List.mem_append.mp h with h | h
        · obtain ⟨c, _, hc⟩ := List.mem_filterMap.mp h
          exact indeedCardStep_senior c j hc
        · exact ih j h

/-- C10: the scrapers apply a seniority exclusion the spec never states.
No record returned by `GupyScraper.scrape_jobs` has a lowercased title
containing the substring `senior` or `sr`, and no record returned by
`IndeedScraper.scrape_jobs` with `senior_filter = true` (the orchestrator's
default) has a lowercased title matching the word-boundary pattern
`\b(senior|sênior|sr)\b`. -/
theorem c10_seniority_exclusion :
    (∀ (cutoff : Int) (maxP : Nat)
       (pages : List (List GupyScraper.GupyCard)) (j : JobDict),
       j ∈ GupyScraper.scrape_jobs cutoff maxP pages →
       GupyScraper.seniorName j.nome = false) ∧
    (∀ (maxP : Nat) (pages : List IndeedScraper.IndeedPage) (j : JobDict),
       j ∈ IndeedScraper.scrape_jobs maxP true pages →
       IndeedScraper.seniorName j.nome = false) := by
  constructor
  · intro cutoff maxP pages j h
    exact gupyScrapeAux_senior cutoff maxP pages j h
  · intro maxP pages j h
    exact indeedScrapeGo_senior (pages.take maxP) j h

/-- C10 witness: the theorem applied to a concrete crawl whose output
contains `jFresh`. -/
theorem c10_witness : GupyScraper.seniorName jFresh.nome = false :=
  c10_seniority_exclusion.1 10 1 [[gFreshCard]] jFresh (by decide)

end JobSearchGLI
